import Mathlib

/-!
Verification of the static-analysis utilities in this repository against
their specification.  The development shallowly embeds the two checkers the
claims are about:

* `scripts/check_sql_injection.py` — a Pattern Matcher (three textual rules
  implemented with `re.search`), a Structural Analyzer (an `ast.NodeVisitor`
  dispatching on `Call` nodes), the File Checker `check_python_file`, and the
  Report Driver `main`.
* `scripts/validate_odoo_structure.py` — the manifest validator
  `validate_manifest` and the driver `main`.

Text is modelled as `List Char`; the three regular expressions are modelled
by hand-compiled scanners whose search semantics (a match exists somewhere
in the text) is proved equivalent to an explicit decomposition of the text,
so the scanners can both be executed on concrete inputs and reasoned about
symbolically.  Python's parser is not part of this repository; the parse
outcome of a file is therefore an explicit input (`Option (List PStmt)`)
of the File Checker, and concrete syntax trees for the concrete file
contents appearing in the claims are supplied literally.
-/

/-- Generic search: `searchWith m l` is true iff the matcher `m` accepts some
suffix of `l`.  This is the semantics of `re.search`: try a match at every
start position. -/
def searchWith (m : List Char → Bool) : List Char → Bool
  | [] => m []
  | c :: rest => m (c :: rest) || searchWith m rest

/-- `stripPref pat s` returns `some t` iff `s = pat ++ t` (the literal text
`pat` matches at the start of `s`). -/
def stripPref : List Char → List Char → Option (List Char)
  | [], s => some s
  | _ :: _, [] => none
  | p :: ps, c :: cs => if p == c then stripPref ps cs else none

/-- `startsWithChars pat s` is true iff `s` starts with the literal `pat`. -/
def startsWithChars (pat s : List Char) : Bool :=
  (stripPref pat s).isSome

/-- Substring containment on character lists, used for Python's
`needle in haystack` and for substring-matching on paths. -/
def containsSub (hay needle : List Char) : Bool :=
  searchWith (fun s => startsWithChars needle s) hay

/-- Python's `str.lower()` on the character level (ASCII case folding, which
is all that the checked inputs use). -/
def strLowerData (s : String) : List Char :=
  s.data.map Char.toLower

namespace SQLInj

/-!
### Structural Analyzer: syntax-tree model

A fragment of the Python `ast` node language, sufficient for every node
kind the checker's visitor distinguishes (`Call`, `Attribute`, `BinOp`,
`JoinedStr`) plus representatives of the kinds it treats generically
(constants, names, tuples).  `call` carries its `lineno`, the only source
position the checker reads.  `BinOp`'s operator and `Constant`'s value are
omitted because the visitor never inspects them (`isinstance` checks only).
The `keywords` list of a call holds the keyword-argument value expressions.
-/

mutual
inductive PExpr where
  | Constant : PExpr
  | Name (id : String) : PExpr
  | Attribute (value : PExpr) (attr : String) : PExpr
  | BinOp (left right : PExpr) : PExpr
  | JoinedStr (values : PExprList) : PExpr
  | Tuple (elts : PExprList) : PExpr
  | Call (lineno : Nat) (func : PExpr) (args : PExprList) (keywords : PExprList) : PExpr

inductive PExprList where
  | nil : PExprList
  | cons (head : PExpr) (tail : PExprList) : PExprList
end

/-- A statement; the checked inputs only need expression statements. -/
inductive PStmt where
  | exprStmt (value : PExpr) : PStmt

/-- Message appended by `visit_Call` for a `BinOp`/`JoinedStr` first argument. -/
def structConcatMsg (fp : String) (ln : Nat) : String :=
  s!"{fp}:{ln}: Potential SQL injection: SQL string uses concatenation or f-string. Use parameterized queries instead."

/-- Message appended by `visit_Call` for a `.format()`/`.replace()` first argument. -/
def structFormatMsg (fp : String) (ln : Nat) : String :=
  s!"{fp}:{ln}: Potential SQL injection: SQL string uses .format() or .replace(). Use parameterized queries with %s placeholders."

/-- `SQLInjectionChecker.visit_Call`, restricted to the issues this node
itself contributes (the `generic_visit` recursion lives in `visitIssues`).
Source logic: if the callee is an `Attribute` with `attr == "execute"` and
there is at least one positional argument, dispatch on the first one. -/
def visit_Call (fp : String) : PExpr → List String
  | .Call ln fn args _kws =>
    (match fn with
     | .Attribute _ attr =>
       (match args with
        | .cons first _ =>
          if attr == "execute" then
            match first with
            | .BinOp _ _ => [structConcatMsg fp ln]
            | .JoinedStr _ => [structConcatMsg fp ln]
            | .Call _ ifn _ _ =>
              (match ifn with
               | .Attribute _ a =>
                 if a == "format" || a == "replace" then [structFormatMsg fp ln] else []
               | _ => [])
            | _ => []
          else []
        | .nil => [])
     | _ => [])
  | _ => []

mutual
/-- Full traversal of an expression tree (`NodeVisitor.visit` together with
`generic_visit`): the issues of a `Call` node come first, then the issues of
its children in field order (`func`, `args`, `keywords`). -/
def visitIssues (fp : String) : PExpr → List String
  | .Constant => []
  | .Name _ => []
  | .Attribute v _ => visitIssues fp v
  | .BinOp l r => visitIssues fp l ++ visitIssues fp r
  | .JoinedStr vs => visitList fp vs
  | .Tuple es => visitList fp es
  | .Call ln fn args kws =>
    visit_Call fp (.Call ln fn args kws) ++ visitIssues fp fn ++ visitList fp args ++ visitList fp kws

def visitList (fp : String) : PExprList → List String
  | .nil => []
  | .cons e es => visitIssues fp e ++ visitList fp es
end

/-- Issues of the Structural Analyzer on a whole parsed module body. -/
def checkModule (fp : String) : List PStmt → List String
  | [] => []
  | .exprStmt e :: rest => visitIssues fp e ++ checkModule fp rest

/-!
### Pattern Matcher: the three textual rules

The regular expressions of the source, all compiled with `re.DOTALL`:

Rule 1 (implicit placeholder formatting):  backslash `.execute` backslash `(`
   then a quote, then lazily any characters, then a percent sign not followed
   by `s`, then lazily any characters, then a quote.
Rule 2 (f-string):  literal `.execute(f`, a quote, then any characters, an
   opening brace, any characters, a closing brace, any characters, a quote.
Rule 3 (concatenation):  literal `.execute(`, then non-`)` characters, a
   plus sign, non-`)` characters, and a closing parenthesis.

Because `re.search` only asks whether some match exists, laziness is
irrelevant and each pattern is compiled to an existence scanner.
-/

def isQuote (c : Char) : Bool := c == '"' || c == '\''

/-- The negative lookahead of rule 1: true iff the list does not start
with `s`. -/
def headNotS : List Char → Bool
  | 's' :: _ => false
  | _ => true

/-- Rule 1 after the opening quote: is there a `%` not followed by `s`,
with some quote character strictly after it? -/
def pat1Tail : List Char → Bool
  | [] => false
  | c :: rest => (c == '%' && headNotS rest && rest.any isQuote) || pat1Tail rest

/-- The literal `.execute(` that starts rules 1 and 3. -/
def execOpen : List Char := ".execute(".data

/-- The literal `.execute(f` that starts rule 2. -/
def execOpenF : List Char := ".execute(f".data

/-- Rule 1 matcher at a fixed start position. -/
def match1 (s : List Char) : Bool :=
  match stripPref execOpen s with
  | some (q :: tail) => isQuote q && pat1Tail tail
  | _ => false

/-- `re.search` of rule 1 over the whole content. -/
def search1 (content : List Char) : Bool := searchWith match1 content

/-- Rule 2 inner part: a `}` with a quote after it. -/
def closeBraceTail : List Char → Bool
  | [] => false
  | c :: rest => (c == '}' && rest.any isQuote) || closeBraceTail rest

/-- Rule 2 after the opening quote: a `{`, later a `}`, later a quote. -/
def braceTail : List Char → Bool
  | [] => false
  | c :: rest => (c == '{' && closeBraceTail rest) || braceTail rest

/-- Rule 2 matcher at a fixed start position. -/
def match2 (s : List Char) : Bool :=
  match stripPref execOpenF s with
  | some (q :: tail) => isQuote q && braceTail tail
  | _ => false

/-- `re.search` of rule 2 over the whole content. -/
def search2 (content : List Char) : Bool := searchWith match2 content

/-- Rule 3 after the opening parenthesis: a `+` reached without passing any
`)`, and some `)` after the `+`.  (The character class of the regex cannot
step over a closing parenthesis.) -/
def plusBeforeClose : List Char → Bool
  | [] => false
  | c :: rest =>
    if c == '+' then rest.any (fun d => d == ')')
    else if c == ')' then false
    else plusBeforeClose rest

/-- Rule 3 matcher at a fixed start position. -/
def match3 (s : List Char) : Bool :=
  match stripPref execOpen s with
  | some t => plusBeforeClose t
  | none => false

/-- `re.search` of rule 3 over the whole content. -/
def search3 (content : List Char) : Bool := searchWith match3 content

/-- Finding of rule 1 (whole file, no line number). -/
def formatMsg (fp : String) : String :=
  s!"{fp}: Detected string formatting in SQL execute() call. Use parameterized queries."

/-- Finding of rule 2 (whole file, no line number). -/
def fstringMsg (fp : String) : String :=
  s!"{fp}: CRITICAL: f-string used in SQL execute() call. This is a SQL injection vulnerability!"

/-- Finding of rule 3 (whole file, no line number). -/
def concatMsg (fp : String) : String :=
  s!"{fp}: String concatenation detected in SQL execute(). Use parameterized queries."

def pat1Issues (fp : String) (content : List Char) : List String :=
  if search1 content then [formatMsg fp] else []

def pat2Issues (fp : String) (content : List Char) : List String :=
  if search2 content then [fstringMsg fp] else []

def pat3Issues (fp : String) (content : List Char) : List String :=
  if search3 content then [concatMsg fp] else []

/-- All Pattern Matcher findings, in source order of the three rules. -/
def patternIssues (fp : String) (content : List Char) : List String :=
  pat1Issues fp content ++ pat2Issues fp content ++ pat3Issues fp content

/-!
### File Checker

`check_python_file` reads the file; reading can fail with a decoding error
or some other error, and on success `ast.parse` can fail with `SyntaxError`
(modelled by `parsed = none`).  The read-and-parse outcome is the input of
the embedded checker, since file I/O and the Python parser are outside the
repository.
-/

inductive ReadRes where
  | ok (content : List Char) (parsed : Option (List PStmt)) : ReadRes
  | unicodeError : ReadRes
  | otherError (msg : String) : ReadRes

def encodingMsg (fp : String) : String :=
  s!"{fp}: File encoding error (expected UTF-8)"

def analysisErrMsg (fp : String) (e : String) : String :=
  s!"{fp}: Error analyzing file: {e}"

/-- `check_python_file`: textual rules first, then the AST pass (skipped on
`SyntaxError`); on a decoding or other error a single finding.  Returns
`(is_safe, issues)` with `is_safe = (len(issues) == 0)`. -/
def check_python_file (fp : String) : ReadRes → Bool × List String
  | .ok content parsed =>
    let issues := patternIssues fp content ++
      (match parsed with
       | some body => checkModule fp body
       | none => [])
    (issues.length == 0, issues)
  | .unicodeError => (false, [encodingMsg fp])
  | .otherError e => (false, [analysisErrMsg fp e])

/-!
### Report Driver
-/

/-- The skip heuristic of `main`:
`"test" in filepath.lower() or "__init__" in filepath`. -/
def skipPath (fp : String) : Bool :=
  containsSub (strLowerData fp) "test".data || containsSub fp.data "__init__".data

/-- The failure marker printed before each issue (the source file literally
contains these three characters). -/
def printedMarker : String := "‚ùå "

def fmtIssue (issue : String) : String := printedMarker ++ issue

/-- The loop of `main` over `sys.argv[1:]`: returns the final `all_safe`
flag and the printed lines in order. -/
def mainLoop : List (String × ReadRes) → Bool × List String
  | [] => (true, [])
  | (fp, r) :: rest =>
    if skipPath fp then mainLoop rest
    else
      let res := check_python_file fp r
      let acc := mainLoop rest
      (res.1 && acc.1, (if res.1 then [] else res.2.map fmtIssue) ++ acc.2)

def usageMsg : String := "Usage: check_sql_injection.py <file1.py> [file2.py ...]"

/-- `main`: with no file arguments print the usage message and return 1;
otherwise run the loop and return 0 iff every checked file was safe.
Result: (exit code, printed lines). -/
def main (files : List (String × ReadRes)) : Nat × List String :=
  match files with
  | [] => (1, [usageMsg])
  | _ :: _ =>
    let res := mainLoop files
    (if res.1 then 0 else 1, res.2)

end SQLInj

namespace OdooVal

/-!
### Manifest validator of `scripts/validate_odoo_structure.py`

A manifest is the result of `ast.literal_eval` on the manifest file; the
validator treats it as a mapping from string keys to Python values, modelled
here as an association list.  `PyVal` covers the literal value shapes the
validator distinguishes; Python truthiness (`not v`) is `pyFalsy`.
Dynamic type errors that Python would raise while validating unusually
typed values (`AttributeError` from `version.startswith` on a non-string,
`TypeError` from iterating a non-iterable) are modelled with `Except`.
-/

inductive PyVal where
  | str (s : String) : PyVal
  | int (n : Int) : PyVal
  | bool (b : Bool) : PyVal
  | none : PyVal
  | list (xs : List PyVal) : PyVal

abbrev Manifest := List (String × PyVal)

/-- `dict` lookup (keys of a Python dict are unique; the first binding wins). -/
def getVal : Manifest → String → Option PyVal
  | [], _ => Option.none
  | (k, v) :: rest, key => if k == key then some v else getVal rest key

/-- `manifest.get(key, default)`. -/
def getD (m : Manifest) (key : String) (dflt : PyVal) : PyVal :=
  (getVal m key).getD dflt

/-- `key in manifest`. -/
def hasKey (m : Manifest) (key : String) : Bool :=
  (getVal m key).isSome

/-- Python truthiness of a literal value. -/
def pyTruthy : PyVal → Bool
  | .str s => !s.data.isEmpty
  | .int n => n != 0
  | .bool b => b
  | .none => false
  | .list xs => !xs.isEmpty

def pyFalsy (v : PyVal) : Bool := !pyTruthy v

/-- The validator's error catalogue, one constructor per `errors.append`
site of `validate_manifest` (messages that interpolate Python sets are
represented by the data they would show, since set formatting order is
unspecified). -/
inductive ManifestError where
  | missingKeys (keys : List String) : ManifestError
  | deprecatedKeys (keys : List String) : ManifestError
  | invalidLicense (lic : PyVal) : ManifestError
  | badVersionStart (v : String) : ManifestError
  | badVersionParts (v : String) : ManifestError
  | aiNoServerAction : ManifestError
  | notInstallable : ManifestError

def REQUIRED_MANIFEST_KEYS : List String :=
  ["name", "version", "depends", "license", "author"]

def ALLOWED_LICENSES : List String :=
  ["AGPL-3", "LGPL-3", "GPL-3", "Apache-2.0", "MIT", "Other proprietary"]

def DEPRECATED_KEYS : List String :=
  ["active", "description"]

/-- `license_key not in ALLOWED_LICENSES` for an arbitrary literal value
(a non-string is never a member of the string set). -/
def isAllowedLicense : PyVal → Bool
  | .str s => ALLOWED_LICENSES.contains s
  | _ => false

/-- `version.split('.')` on the character level (Python's `str.split` with a
separator: the empty string splits to one empty part). -/
def splitDots : List Char → List (List Char)
  | [] => [[]]
  | c :: rest =>
    if c == '.' then [] :: splitDots rest
    else
      match splitDots rest with
      | [] => [[c]]
      | p :: ps => (c :: p) :: ps

def prefix19 : List Char := "19.0.".data

/-- `any('ai' in dep.lower() for dep in deps)` over a list of dependency
values; a non-string dependency raises `AttributeError` (short-circuited,
as the generator is). -/
def anyAIDeps : List PyVal → Except String Bool
  | [] => Except.ok false
  | .str s :: rest =>
    if containsSub (strLowerData s) "ai".data then Except.ok true else anyAIDeps rest
  | _ :: _ => Except.error "AttributeError: lower"

/-- Iterating `manifest.get('depends', [])`: a list iterates its elements; a
string iterates its characters, but a one-character string can never contain
the two-character needle, so the whole `any` is false; other literal values
are not iterable. -/
def anyAI : PyVal → Except String Bool
  | .list ds => anyAIDeps ds
  | .str _ => Except.ok false
  | _ => Except.error "TypeError: not iterable"

/-- `any('server_action' in f for f in data)` over a list of data-file
values; `'server_action' in f` on a non-string `f` raises `TypeError`. -/
def anySAData : List PyVal → Except String Bool
  | [] => Except.ok false
  | .str f :: rest =>
    if containsSub f.data "server_action".data then Except.ok true else anySAData rest
  | _ :: _ => Except.error "TypeError: in expects str"

/-- Iterating `manifest.get('data', [])` for the server-action test; a
string iterates one-character strings, none of which can contain the
twelve-character needle. -/
def anySA : PyVal → Except String Bool
  | .list fs => anySAData fs
  | .str _ => Except.ok false
  | _ => Except.error "TypeError: not iterable"

/-- The AI-dependency consistency check: executed only when some dependency
name contains `ai`; the `or` short-circuits, so the data files are only
inspected when the `data` key is present. -/
def aiCheck (m : Manifest) (hasAI : Bool) : Except String (List ManifestError) :=
  if hasAI then
    if !hasKey m "data" then Except.ok [ManifestError.aiNoServerAction]
    else
      match anySA (getD m "data" (PyVal.list [])) with
      | Except.error e => Except.error e
      | Except.ok sa => Except.ok (if sa then [] else [ManifestError.aiNoServerAction])
  else Except.ok []

/-- `validate_manifest`: the five key/license/version checks, the AI check,
and the `installable` check, with the errors accumulated in source order.
(The parse of the manifest file itself is the function's input.) -/
def validate_manifest (m : Manifest) : Except String (List ManifestError) :=
  let keys := m.map Prod.fst
  let missing := REQUIRED_MANIFEST_KEYS.filter (fun k => !keys.contains k)
  let e1 : List ManifestError :=
    if missing.isEmpty then [] else [ManifestError.missingKeys missing]
  let deprecated := DEPRECATED_KEYS.filter (fun k => keys.contains k)
  let e2 : List ManifestError :=
    if deprecated.isEmpty then [] else [ManifestError.deprecatedKeys deprecated]
  let lic := getD m "license" PyVal.none
  let e3 : List ManifestError :=
    if pyTruthy lic && !isAllowedLicense lic then [ManifestError.invalidLicense lic] else []
  match getD m "version" (PyVal.str "") with
  | PyVal.str version =>
    let e4 : List ManifestError :=
      if !startsWithChars prefix19 version.data then [ManifestError.badVersionStart version] else []
    let e5 : List ManifestError :=
      if (splitDots version.data).length != 5 then [ManifestError.badVersionParts version] else []
    (match anyAI (getD m "depends" (PyVal.list [])) with
     | Except.error e => Except.error e
     | Except.ok hasAI =>
       match aiCheck m hasAI with
       | Except.error e => Except.error e
       | Except.ok e6 =>
         let e7 : List ManifestError :=
           if pyFalsy (getD m "installable" (PyVal.bool true)) then [ManifestError.notInstallable] else []
         Except.ok (e1 ++ e2 ++ e3 ++ e4 ++ e5 ++ e6 ++ e7))
  | _ => Except.error "AttributeError: startswith"

/-!
### Driver of the validator

The driver `main` checks `len(sys.argv) < 2`, then immediately evaluates
`validate_manifest_19(manifest_path)`.  No top-level binding of that name
exists in the file (the validator is defined as `validate_manifest`), so
name resolution fails and every invocation that reaches this line raises
`NameError` — Python prints the exact message
`NameError: name 'validate_manifest_19' is not defined` — instead of
collecting and printing violations.
-/

inductive PyOutcome where
  | exits (code : Nat) : PyOutcome
  | raises (exc : String) : PyOutcome

/-- The top-level names the module binds, in source order. -/
def definedTopLevel : List String :=
  ["REQUIRED_MANIFEST_KEYS", "ALLOWED_LICENSES", "DEPRECATED_KEYS",
   "REQUIRED_FILES", "RECOMMENDED_DIRS", "OWL_COMPONENT_STRUCTURE",
   "validate_manifest", "validate_odoo_structure", "main"]

/-- The name `main` applies to validate the manifest. -/
def manifestValidatorCallee : String := "validate_manifest_19"

/-- `NameError` text, without the quotation marks Python puts around the
name. -/
def nameErrorMsg : String :=
  "NameError: name validate_manifest_19 is not defined"

/-- `main` of `validate_odoo_structure.py`: usage check, then the call of
the undefined name raises before any validation output. -/
def main (argv : List String) : PyOutcome :=
  if argv.length < 2 then PyOutcome.exits 1
  else PyOutcome.raises nameErrorMsg

/-- A concrete well-formed manifest whose `installable` key is `False`,
used to instantiate the `installable` claim. -/
def manifestW : Manifest :=
  [("name", PyVal.str "X"), ("version", PyVal.str "19.0.1.0.0"),
   ("depends", PyVal.list []), ("license", PyVal.str "MIT"),
   ("author", PyVal.str "A"), ("installable", PyVal.bool false)]

end OdooVal

/-!
### Definitions taken from the wording of the claims

These definitions follow the claims (not the source); the claim theorems
compare them with the source-derived definitions above.
-/

namespace SQLInj

/-- Claim C1's first branch condition: the first positional argument is a
binary operation or an interpolated-string node. -/
def firstArgRisky : PExpr → Bool
  | .BinOp _ _ => true
  | .JoinedStr _ => true
  | _ => false

/-- Claim C1's second branch condition: the first positional argument is a
call whose callee is an attribute access named `format` or `replace`. -/
def firstArgFormatRepl : PExpr → Bool
  | .Call _ (.Attribute _ a) _ _ => a == "format" || a == "replace"
  | _ => false

/-- The verdict claim C1 prescribes for an `execute` call with at least one
positional argument, as a function of the first argument only. -/
def specVerdict (fp : String) (ln : Nat) (arg : PExpr) : List String :=
  if firstArgRisky arg then [structConcatMsg fp ln]
  else if firstArgFormatRepl arg then [structFormatMsg fp ln]
  else []

/-- Is the callee an attribute/member access at all? (for the "every other
case" part of claim C1). -/
def isAttributeNode : PExpr → Bool
  | .Attribute _ _ => true
  | _ => false

/-- Claim C7's firing condition, read from the claim's words: after some
occurrence of `.execute(` there is a `+` before the closing parenthesis of
the call, parentheses counted with nesting. -/
def plusAtDepth : Nat → List Char → Bool
  | _, [] => false
  | d, c :: rest =>
    if c == '+' then true
    else if c == '(' then plusAtDepth (d + 1) rest
    else if c == ')' then
      (match d with
       | 0 => false
       | e + 1 => plusAtDepth e rest)
    else plusAtDepth d rest

/-- Claim C7's reading of "a call to the execution method contains a `+`
operator anywhere between the call's parentheses", as a textual predicate. -/
def specConcatClaim (content : List Char) : Bool :=
  searchWith
    (fun s =>
      match stripPref execOpen s with
      | some t => plusAtDepth 0 t
      | none => false)
    content

/-!
### Concrete contents and syntax trees used by the claims
-/

/-- The line of claims C6: `cursor.execute("SELECT * FROM t WHERE id=%s" % x)`. -/
def lineC6 : List Char :=
  "cursor.execute(\"SELECT * FROM t WHERE id=%s\" % x)".data

/-- The syntax tree of `lineC6` as a one-statement module: an `execute`
call whose single positional argument is the `BinOp`
`"SELECT * FROM t WHERE id=%s" % x`, at line 1. -/
def lineC6Ast : List PStmt :=
  [PStmt.exprStmt (.Call 1 (.Attribute (.Name "cursor") "execute")
    (.cons (.BinOp .Constant (.Name "x")) .nil) .nil)]

/-- Pieces of `lineC6` around its `%` operator, used to exhibit the rule-1
regex decomposition. -/
def lineC6TailA : List Char := "SELECT * FROM t WHERE id=%s\" ".data

def lineC6TailB : List Char := [' ', 'x', ')']

/-- The content of claim C8: `cursor.execute("SELECT * FROM t WHERE id=%s", (x,))`. -/
def contentC8 : List Char :=
  "cursor.execute(\"SELECT * FROM t WHERE id=%s\", (x,))".data

/-- The syntax tree of `contentC8`: an `execute` call whose first positional
argument is the string constant and whose second is the tuple `(x,)`. -/
def contentC8Ast : List PStmt :=
  [PStmt.exprStmt (.Call 1 (.Attribute (.Name "cursor") "execute")
    (.cons .Constant (.cons (.Tuple (.cons (.Name "x") .nil)) .nil)) .nil)]

/-- The counterexample content for claim C7: `db.execute(f(x) + g(y))`, an
`execute` call whose argument list contains `+` between the call's
parentheses, behind an inner closing parenthesis. -/
def contentC7 : List Char := "db.execute(f(x) + g(y))".data

end SQLInj

/-!
## Helper lemmas

Characterizations of the scanners as explicit text decompositions
(`re.search` finds a match iff the text splits accordingly), plus small
lemmas about the driver loop and the manifest validator.
-/

theorem searchWith_iff (m : List Char → Bool) (l : List Char) :
    searchWith m l = true ↔ ∃ pre suf, l = pre ++ suf ∧ m suf = true := by
  induction l with
  | nil =>
    simp only [searchWith]
    constructor
    · intro h
      exact ⟨[], [], rfl, h⟩
    · rintro ⟨pre, suf, heq, hm⟩
      cases pre with
      | nil =>
        simp only [List.nil_append] at heq
        subst heq
        exact hm
      | cons a as => simp at heq
  | cons c rest ih =>
    simp only [searchWith, Bool.or_eq_true]
    constructor
    · rintro (h | h)
      · exact ⟨[], c :: rest, rfl, h⟩
      · obtain ⟨pre, suf, heq, hm⟩ := ih.1 h
        exact ⟨c :: pre, suf, by rw [heq]; rfl, hm⟩
    · rintro ⟨pre, suf, heq, hm⟩
      cases pre with
      | nil =>
        simp only [List.nil_append] at heq
        subst heq
        exact Or.inl hm
      | cons a as =>
        simp only [List.cons_append, List.cons.injEq] at heq
        exact Or.inr (ih.2 ⟨as, suf, heq.2, hm⟩)

theorem stripPref_eq_some (pat : List Char) :
    ∀ s t : List Char, stripPref pat s = some t ↔ s = pat ++ t := by
  induction pat with
  | nil =>
    intro s t
    simp only [stripPref, Option.some.injEq, List.nil_append]
  | cons p ps ih =>
    intro s t
    cases s with
    | nil => simp [stripPref]
    | cons c cs =>
      simp only [stripPref]
      by_cases hpc : p == c
      · rw [if_pos hpc]
        have hpc' : p = c := by exact beq_iff_eq.1 hpc
        subst hpc'
        simp [ih, List.cons_append]
      · rw [if_neg hpc]
        have hpc' : ¬p = c := fun h => hpc (by simp [h])
        simp only [List.cons_append, List.cons.injEq]
        constructor
        · intro h
          simp at h
        · rintro ⟨h1, _⟩
          exact absurd h1.symm hpc'

theorem stripPref_self_app (pat t : List Char) :
    stripPref pat (pat ++ t) = some t :=
  (stripPref_eq_some pat (pat ++ t) t).2 rfl

theorem startsWithChars_iff (pat s : List Char) :
    startsWithChars pat s = true ↔ ∃ t, s = pat ++ t := by
  unfold startsWithChars
  rw [Option.isSome_iff_exists]
  constructor
  · rintro ⟨t, ht⟩
    exact ⟨t, (stripPref_eq_some pat s t).1 ht⟩
  · rintro ⟨t, ht⟩
    exact ⟨t, (stripPref_eq_some pat s t).2 ht⟩

theorem containsSub_iff (hay needle : List Char) :
    containsSub hay needle = true ↔ ∃ pre suf, hay = pre ++ (needle ++ suf) := by
  unfold containsSub
  rw [searchWith_iff]
  constructor
  · rintro ⟨pre, suf, heq, hm⟩
    obtain ⟨t, ht⟩ := (startsWithChars_iff needle suf).1 hm
    exact ⟨pre, t, by rw [heq, ht]⟩
  · rintro ⟨pre, suf, heq⟩
    exact ⟨pre, needle ++ suf, heq, (startsWithChars_iff needle _).2 ⟨suf, rfl⟩⟩

theorem mem_split_first {x : Char} {l : List Char} (h : x ∈ l) :
    ∃ a b, l = a ++ x :: b ∧ x ∉ a := by
  induction l with
  | nil => simp at h
  | cons c rest ih =>
    by_cases hcx : x = c
    · subst hcx
      exact ⟨[], rest, rfl, by simp⟩
    · have hx : x ∈ rest := by
        rcases List.mem_cons.1 h with h1 | h1
        · exact absurd h1 hcx
        · exact h1
      obtain ⟨a, b, heq, hna⟩ := ih hx
      refine ⟨c :: a, b, by rw [heq]; rfl, ?_⟩
      intro hmem
      rcases List.mem_cons.1 hmem with h2 | h2
      · exact hcx h2
      · exact hna h2

namespace SQLInj

theorem pat1Tail_iff (l : List Char) :
    pat1Tail l = true ↔
      ∃ a rest, l = a ++ '%' :: rest ∧ headNotS rest = true ∧ rest.any isQuote = true := by
  induction l with
  | nil =>
    simp only [pat1Tail]
    constructor
    · intro h
      simp at h
    · rintro ⟨a, rest, heq, _, _⟩
      cases a <;> simp at heq
  | cons c rest ih =>
    simp only [pat1Tail, Bool.or_eq_true, Bool.and_eq_true, beq_iff_eq]
    constructor
    · rintro (⟨⟨hc, hns⟩, hq⟩ | h)
      · subst hc
        exact ⟨[], rest, rfl, hns, hq⟩
      · obtain ⟨a, r, heq, hns, hq⟩ := ih.1 h
        exact ⟨c :: a, r, by rw [heq]; rfl, hns, hq⟩
    · rintro ⟨a, r, heq, hns, hq⟩
      cases a with
      | nil =>
        simp only [List.nil_append, List.cons.injEq] at heq
        obtain ⟨hc, hr⟩ := heq
        subst hc
        subst hr
        exact Or.inl ⟨⟨rfl, hns⟩, hq⟩
      | cons d ds =>
        simp only [List.cons_append, List.cons.injEq] at heq
        exact Or.inr (ih.2 ⟨ds, r, heq.2, hns, hq⟩)

theorem plusBeforeClose_iff (l : List Char) :
    plusBeforeClose l = true ↔
      ∃ a b post, l = a ++ '+' :: (b ++ ')' :: post) ∧ ')' ∉ a ∧ ')' ∉ b := by
  induction l with
  | nil =>
    simp only [plusBeforeClose]
    constructor
    · intro h
      simp at h
    · rintro ⟨a, b, post, heq, _, _⟩
      cases a <;> simp at heq
  | cons c rest ih =>
    by_cases h1 : c = '+'
    · subst h1
      simp only [plusBeforeClose, if_pos (by rfl : ('+' == '+') = true)]
      constructor
      · intro h
        have hmem : ')' ∈ rest := by
          obtain ⟨x, hx, hxe⟩ := List.any_eq_true.1 h
          rwa [beq_iff_eq.1 hxe] at hx
        obtain ⟨b, post, heq, hb⟩ := mem_split_first hmem
        exact ⟨[], b, post, by rw [heq]; rfl, by simp, hb⟩
      · rintro ⟨a, b, post, heq, ha, hb⟩
        apply List.any_eq_true.2
        refine ⟨')', ?_, by rfl⟩
        cases a with
        | nil =>
          simp only [List.nil_append, List.cons.injEq] at heq
          rw [heq.2]
          simp
        | cons d ds =>
          simp only [List.cons_append, List.cons.injEq] at heq
          rw [heq.2]
          simp
    · by_cases h2 : c = ')'
      · subst h2
        have hcond : (')' == '+') = false := by rfl
        simp only [plusBeforeClose, hcond, Bool.false_eq_true, if_false,
          if_pos (by rfl : (')' == ')') = true)]
        constructor
        · intro h
          simp at h
        · rintro ⟨a, b, post, heq, ha, hb⟩
          cases a with
          | nil =>
            simp only [List.nil_append, List.cons.injEq] at heq
            exact absurd heq.1 (by decide)
          | cons d ds =>
            simp only [List.cons_append, List.cons.injEq] at heq
            exact absurd (heq.1 ▸ List.mem_cons_self d ds) (heq.1 ▸ ha)
      · have hc1 : (c == '+') = false := by
          exact beq_eq_false_iff_ne.2 h1
        have hc2 : (c == ')') = false := by
          exact beq_eq_false_iff_ne.2 h2
        simp only [plusBeforeClose, hc1, hc2, Bool.false_eq_true, if_false]
        rw [ih]
        constructor
        · rintro ⟨a, b, post, heq, ha, hb⟩
          refine ⟨c :: a, b, post, by rw [heq]; rfl, ?_, hb⟩
          intro hmem
          rcases List.mem_cons.1 hmem with h3 | h3
          · exact h2 h3.symm
          · exact ha h3
        · rintro ⟨a, b, post, heq, ha, hb⟩
          cases a with
          | nil =>
            simp only [List.nil_append, List.cons.injEq] at heq
            exact absurd heq.1 h1
          | cons d ds =>
            simp only [List.cons_append, List.cons.injEq] at heq
            refine ⟨ds, b, post, heq.2, ?_, hb⟩
            intro hmem
            exact ha (List.mem_cons.2 (Or.inr hmem))

theorem match3_iff (s : List Char) :
    match3 s = true ↔ ∃ t, s = execOpen ++ t ∧ plusBeforeClose t = true := by
  unfold match3
  constructor
  · intro h
    cases hsp : stripPref execOpen s with
    | none => rw [hsp] at h; simp at h
    | some t =>
      rw [hsp] at h
      exact ⟨t, (stripPref_eq_some _ _ _).1 hsp, h⟩
  · rintro ⟨t, heq, hp⟩
    subst heq
    rw [stripPref_self_app]
    exact hp

theorem search3_iff (content : List Char) :
    search3 content = true ↔
      ∃ pre a b post,
        content = pre ++ (execOpen ++ (a ++ '+' :: (b ++ ')' :: post))) ∧
          ')' ∉ a ∧ ')' ∉ b := by
  unfold search3
  rw [searchWith_iff]
  constructor
  · rintro ⟨pre, suf, hc, hm⟩
    obtain ⟨t, hst, hp⟩ := (match3_iff suf).1 hm
    obtain ⟨a, b, post, ht, ha, hb⟩ := (plusBeforeClose_iff t).1 hp
    exact ⟨pre, a, b, post, by rw [hc, hst, ht], ha, hb⟩
  · rintro ⟨pre, a, b, post, hc, ha, hb⟩
    refine ⟨pre, execOpen ++ (a ++ '+' :: (b ++ ')' :: post)), hc, ?_⟩
    exact (match3_iff _).2 ⟨_, rfl, (plusBeforeClose_iff _).2 ⟨a, b, post, rfl, ha, hb⟩⟩

theorem match1_intro (q : Char) (tail : List Char)
    (hq : isQuote q = true) (ht : pat1Tail tail = true) :
    match1 (execOpen ++ q :: tail) = true := by
  unfold match1
  rw [stripPref_self_app]
  simp [hq, ht]

theorem search1_intro (pre tail : List Char) (q : Char)
    (hq : isQuote q = true) (ht : pat1Tail tail = true) :
    search1 (pre ++ (execOpen ++ q :: tail)) = true := by
  unfold search1
  exact (searchWith_iff _ _).2 ⟨pre, execOpen ++ q :: tail, rfl, match1_intro q tail hq ht⟩

theorem check_safe_iff_nil (fp : String) (r : ReadRes) :
    (check_python_file fp r).1 = true ↔ (check_python_file fp r).2 = [] := by
  cases r with
  | ok content parsed =>
    simp [check_python_file, List.length_eq_zero]
  | unicodeError => simp [check_python_file]
  | otherError e => simp [check_python_file]

theorem mainLoop_allSafe (files : List (String × ReadRes)) :
    (mainLoop files).1 = true ↔
      ∀ p ∈ files, skipPath p.1 = true ∨ (check_python_file p.1 p.2).2 = [] := by
  induction files with
  | nil => simp [mainLoop]
  | cons q rest ih =>
    obtain ⟨fp, r⟩ := q
    by_cases hs : skipPath fp = true
    · simp [mainLoop, hs, ih]
    · simp only [Bool.not_eq_true] at hs
      simp [mainLoop, hs, Bool.and_eq_true, ih, check_safe_iff_nil,
        List.forall_mem_cons]

end SQLInj

theorem mem_ite_single {α : Type} (x y : α) (c : Prop) [Decidable c] :
    x ∈ (if c then [y] else ([] : List α)) ↔ c ∧ x = y := by
  by_cases h : c <;> simp [h]

namespace OdooVal

theorem aiCheck_ok_no_install (m : Manifest) (b : Bool) (l : List ManifestError)
    (h : aiCheck m b = Except.ok l) : ManifestError.notInstallable ∉ l := by
  unfold aiCheck at h
  by_cases hb : b = true
  · rw [if_pos hb] at h
    cases hk : hasKey m "data" with
    | false =>
      rw [hk] at h
      simp only [Bool.not_false, if_true, Except.ok.injEq] at h
      subst h
      simp
    | true =>
      rw [hk] at h
      simp only [Bool.not_true, Bool.false_eq_true, if_false] at h
      cases hsa : anySA (getD m "data" (PyVal.list [])) with
      | error e => rw [hsa] at h; simp at h
      | ok sa =>
        rw [hsa] at h
        simp only [Except.ok.injEq] at h
        subst h
        cases sa <;> simp
  · simp only [Bool.not_eq_true] at hb
    rw [hb] at h
    simp only [Bool.false_eq_true, if_false, Except.ok.injEq] at h
    subst h
    simp
end OdooVal

/-!
## Claim theorems
-/

theorem visit_Call_exec_verdict (fp : String) (ln : Nat) (obj arg : SQLInj.PExpr)
    (rest kws : SQLInj.PExprList) :
    SQLInj.visit_Call fp (.Call ln (.Attribute obj "execute") (.cons arg rest) kws)
      = SQLInj.specVerdict fp ln arg := by
  cases arg with
  | Constant =>
    simp [SQLInj.visit_Call, SQLInj.specVerdict, SQLInj.firstArgRisky, SQLInj.firstArgFormatRepl]
  | Name i =>
    simp [SQLInj.visit_Call, SQLInj.specVerdict, SQLInj.firstArgRisky, SQLInj.firstArgFormatRepl]
  | Attribute v a =>
    simp [SQLInj.visit_Call, SQLInj.specVerdict, SQLInj.firstArgRisky, SQLInj.firstArgFormatRepl]
  | BinOp l r =>
    simp [SQLInj.visit_Call, SQLInj.specVerdict, SQLInj.firstArgRisky, SQLInj.firstArgFormatRepl]
  | JoinedStr vs =>
    simp [SQLInj.visit_Call, SQLInj.specVerdict, SQLInj.firstArgRisky, SQLInj.firstArgFormatRepl]
  | Tuple es =>
    simp [SQLInj.visit_Call, SQLInj.specVerdict, SQLInj.firstArgRisky, SQLInj.firstArgFormatRepl]
  | Call ila ifn iargs ikws =>
    cases ifn <;>
      simp [SQLInj.visit_Call, SQLInj.specVerdict, SQLInj.firstArgRisky, SQLInj.firstArgFormatRepl]

/-- Claim C1: on every call node whose callee is an attribute access named
exactly `execute` and which has at least one positional argument, the
Structural Analyzer's per-node verdict is precisely the claim's case
analysis of the first positional argument (`specVerdict`): a binary
operation or f-string first argument yields the critical
concatenation/f-string Finding at the call's line, a `.format()`/`.replace()`
call yields the critical format Finding at the call's line, and anything
else yields no Finding.  The verdict never depends on the later positional
arguments or on the keyword arguments, and calls with a different attribute
name, no positional arguments, or a non-attribute callee yield no
Finding. -/
theorem claim_C1 (fp : String) (ln : Nat) (obj arg : SQLInj.PExpr)
    (rest kws rest2 kws2 : SQLInj.PExprList) :
    SQLInj.visit_Call fp (.Call ln (.Attribute obj "execute") (.cons arg rest) kws)
      = SQLInj.specVerdict fp ln arg
    ∧ SQLInj.visit_Call fp (.Call ln (.Attribute obj "execute") (.cons arg rest) kws)
      = SQLInj.visit_Call fp (.Call ln (.Attribute obj "execute") (.cons arg rest2) kws2)
    ∧ (∀ attr : String, attr ≠ "execute" →
        SQLInj.visit_Call fp (.Call ln (.Attribute obj attr) (.cons arg rest) kws) = [])
    ∧ SQLInj.visit_Call fp (.Call ln (.Attribute obj "execute") SQLInj.PExprList.nil kws) = []
    ∧ (∀ fn : SQLInj.PExpr, SQLInj.isAttributeNode fn = false →
        SQLInj.visit_Call fp (.Call ln fn (.cons arg rest) kws) = []) := by
  refine ⟨visit_Call_exec_verdict fp ln obj arg rest kws, ?_, ?_, ?_, ?_⟩
  · rw [visit_Call_exec_verdict fp ln obj arg rest kws,
      visit_Call_exec_verdict fp ln obj arg rest2 kws2]
  · intro attr hattr
    have hb : (attr == "execute") = false := beq_eq_false_iff_ne.2 hattr
    simp [SQLInj.visit_Call, hb]
  · simp [SQLInj.visit_Call]
  · intro fn hfn
    cases fn <;> simp_all [SQLInj.visit_Call, SQLInj.isAttributeNode]

/-- Witness for claim C1: the theorem applied at a concrete `execute` call
with a `BinOp` first argument, at a call through a different method name,
and at a call through a plain name. -/
theorem claim_C1_witness :
    SQLInj.visit_Call "f.py" (.Call 3 (.Attribute (.Name "cr") "execute")
        (.cons (.BinOp .Constant (.Name "q")) .nil) .nil)
      = SQLInj.specVerdict "f.py" 3 (.BinOp .Constant (.Name "q"))
    ∧ SQLInj.visit_Call "f.py" (.Call 3 (.Attribute (.Name "cr") "mogrify")
        (.cons (.BinOp .Constant (.Name "q")) .nil) .nil) = []
    ∧ SQLInj.visit_Call "f.py" (.Call 3 (.Name "run")
        (.cons (.BinOp .Constant (.Name "q")) .nil) .nil) = [] := by
  have h := claim_C1 "f.py" 3 (.Name "cr") (.BinOp .Constant (.Name "q"))
    .nil .nil .nil .nil
  exact ⟨h.1, h.2.2.1 "mogrify" (by decide), h.2.2.2.2 (.Name "run") (by decide)⟩

/-- Claim C2: with no paths the Report Driver prints the usage message and
returns 1; with at least one path the exit status is 0 iff every
non-skipped file's Finding list is empty. -/
theorem claim_C2 (files : List (String × SQLInj.ReadRes)) :
    (files = [] → SQLInj.main files = (1, [SQLInj.usageMsg]))
    ∧ (files ≠ [] →
        ((SQLInj.main files).1 = 0 ↔
          ∀ p ∈ files,
            SQLInj.skipPath p.1 = true ∨ (SQLInj.check_python_file p.1 p.2).2 = [])) := by
  constructor
  · intro h
    subst h
    rfl
  · intro hne
    cases files with
    | nil => exact absurd rfl hne
    | cons q rest =>
      simp only [SQLInj.main]
      constructor
      · intro h
        by_cases hb : (SQLInj.mainLoop (q :: rest)).1 = true
        · exact (SQLInj.mainLoop_allSafe _).1 hb
        · rw [if_neg hb] at h
          exact absurd h (by decide)
      · intro hall
        rw [if_pos ((SQLInj.mainLoop_allSafe _).2 hall)]

/-- Witness for claim C2: the zero-path case, and a one-file run on an
undecodable file, whose exit status the theorem forces to 1. -/
theorem claim_C2_witness :
    SQLInj.main [] = (1, [SQLInj.usageMsg])
    ∧ (SQLInj.main [("a.py", SQLInj.ReadRes.unicodeError)]).1 = 1 := by
  refine ⟨(claim_C2 []).1 rfl, ?_⟩
  have h := (claim_C2 [("a.py", SQLInj.ReadRes.unicodeError)]).2 (by simp)
  have h1 : ¬(SQLInj.main [("a.py", SQLInj.ReadRes.unicodeError)]).1 = 0 := by
    intro h0
    have h2 := h.1 h0 ("a.py", SQLInj.ReadRes.unicodeError) (by simp)
    revert h2
    decide
  revert h1
  decide

/-- Claim C3: an undecodable file yields exactly the one encoding Finding
(neither analysis pass runs: the result is fixed independently of any
content), and the driver loop still processes the remaining paths. -/
theorem claim_C3 (fp : String) (rest : List (String × SQLInj.ReadRes))
    (h : SQLInj.skipPath fp = false) :
    SQLInj.check_python_file fp SQLInj.ReadRes.unicodeError
      = (false, [SQLInj.encodingMsg fp])
    ∧ SQLInj.mainLoop ((fp, SQLInj.ReadRes.unicodeError) :: rest)
      = (false, SQLInj.fmtIssue (SQLInj.encodingMsg fp) :: (SQLInj.mainLoop rest).2) := by
  constructor
  · rfl
  · simp [SQLInj.mainLoop, h, SQLInj.check_python_file]

/-- Witness for claim C3 at a concrete non-skipped path. -/
theorem claim_C3_witness :
    SQLInj.check_python_file "models/base.py" SQLInj.ReadRes.unicodeError
      = (false, [SQLInj.encodingMsg "models/base.py"])
    ∧ SQLInj.mainLoop [("models/base.py", SQLInj.ReadRes.unicodeError)]
      = (false, SQLInj.fmtIssue (SQLInj.encodingMsg "models/base.py")
          :: (SQLInj.mainLoop []).2) :=
  claim_C3 "models/base.py" [] (by decide)

/-- Claim C4: when parsing fails, the File Checker's findings are exactly
the Pattern Matcher's findings (the Structural Analyzer contributes
nothing and nothing is raised), and the file is safe iff the Pattern
Matcher found nothing. -/
theorem claim_C4 (fp : String) (content : List Char) :
    (SQLInj.check_python_file fp (SQLInj.ReadRes.ok content none)).2
      = SQLInj.patternIssues fp content
    ∧ ((SQLInj.check_python_file fp (SQLInj.ReadRes.ok content none)).1 = true ↔
        SQLInj.patternIssues fp content = []) := by
  constructor
  · simp [SQLInj.check_python_file]
  · simp [SQLInj.check_python_file, List.length_eq_zero]

/-- Claim C5: a path containing `test` (any case) or `__init__` is dropped
by the driver loop: the loop's result on any file list containing it, with
any file content, equals the result on the list without it, so the File
Checker is never invoked on it and it never affects the aggregate. -/
theorem claim_C5 (fp : String)
    (h : containsSub (strLowerData fp) "test".data = true ∨
         containsSub fp.data "__init__".data = true) :
    ∀ (r : SQLInj.ReadRes) (pre post : List (String × SQLInj.ReadRes)),
      SQLInj.mainLoop (pre ++ (fp, r) :: post) = SQLInj.mainLoop (pre ++ post) := by
  have hs : SQLInj.skipPath fp = true := by
    unfold SQLInj.skipPath
    rcases h with h | h <;> simp [h]
  intro r pre post
  induction pre with
  | nil => simp [SQLInj.mainLoop, hs]
  | cons q pre ih =>
    obtain ⟨fq, rq⟩ := q
    by_cases hq : SQLInj.skipPath fq = true
    · simp [SQLInj.mainLoop, hq, ih]
    · simp only [Bool.not_eq_true] at hq
      simp [SQLInj.mainLoop, hq, ih]

/-- Witness for claim C5: a mixed-case `Test` path is dropped from a
two-file list regardless of its read result. -/
theorem claim_C5_witness :
    SQLInj.mainLoop ([] ++ ("src/Test_models.py", SQLInj.ReadRes.ok [] none)
        :: [("a.py", SQLInj.ReadRes.unicodeError)])
      = SQLInj.mainLoop ([] ++ [("a.py", SQLInj.ReadRes.unicodeError)]) :=
  claim_C5 "src/Test_models.py" (Or.inl (by decide))
    (SQLInj.ReadRes.ok [] none) [] [("a.py", SQLInj.ReadRes.unicodeError)]

/-- Counterexample to claim C6: the file content consisting exactly of
`cursor.execute("SELECT * FROM t WHERE id=%s" % x)` contains that line, yet
the implicit-placeholder-formatting rule produces no Finding for it (the
rule's pattern needs a quote character after a `%` not followed by `s`, and
none occurs). -/
theorem claim_C6_cex :
    containsSub SQLInj.lineC6 SQLInj.lineC6 = true
    ∧ SQLInj.pat1Issues "app.py" SQLInj.lineC6 = [] := by
  constructor
  · decide
  · decide

/-- Claim C6 (amended): the Structural Analyzer fires on the parse of the
line `cursor.execute("SELECT * FROM t WHERE id=%s" % x)` via its
binary-operation branch, with a critical Finding at line 1; the Pattern
Matcher's implicit-formatting rule fires on content containing the line
whenever a quote character occurs somewhere after the line (and, by the
counterexample, not when the content is exactly the line). -/
theorem claim_C6 (fp : String) (pre suf : List Char)
    (hq : suf.any SQLInj.isQuote = true) :
    SQLInj.pat1Issues fp (pre ++ SQLInj.lineC6 ++ suf) = [SQLInj.formatMsg fp]
    ∧ SQLInj.checkModule fp SQLInj.lineC6Ast = [SQLInj.structConcatMsg fp 1] := by
  constructor
  · have hdecomp : SQLInj.lineC6
        = "cursor".data ++ (SQLInj.execOpen
            ++ '"' :: (SQLInj.lineC6TailA ++ '%' :: SQLInj.lineC6TailB)) := by
      decide
    have htail :
        SQLInj.pat1Tail (SQLInj.lineC6TailA ++ '%' :: (SQLInj.lineC6TailB ++ suf)) = true := by
      apply (SQLInj.pat1Tail_iff _).2
      refine ⟨SQLInj.lineC6TailA, SQLInj.lineC6TailB ++ suf, rfl, ?_, ?_⟩
      · rfl
      · rw [List.any_append, hq]
        simp
    have hs : SQLInj.search1 (pre ++ SQLInj.lineC6 ++ suf) = true := by
      have hsplit : pre ++ SQLInj.lineC6 ++ suf
          = (pre ++ "cursor".data) ++ (SQLInj.execOpen
              ++ '"' :: (SQLInj.lineC6TailA ++ '%' :: (SQLInj.lineC6TailB ++ suf))) := by
        rw [hdecomp]
        simp [List.append_assoc]
      rw [hsplit]
      exact SQLInj.search1_intro _ _ '"' (by decide) htail
    have hs2 : SQLInj.search1 (pre ++ (SQLInj.lineC6 ++ suf)) = true := by
      rw [← List.append_assoc]
      exact hs
    simp [SQLInj.pat1Issues, hs, hs2]
  · rfl

/-- Witness for claim C6: the amended pattern-rule statement at a concrete
content that appends one double quote after the line. -/
theorem claim_C6_witness :
    (['"'].any SQLInj.isQuote = true)
    ∧ SQLInj.pat1Issues "m.py" ([] ++ SQLInj.lineC6 ++ ['"'])
        = [SQLInj.formatMsg "m.py"] :=
  ⟨by decide, (claim_C6 "m.py" [] ['"'] (by decide)).1⟩

/-- Counterexample to claim C7: in `db.execute(f(x) + g(y))` an `execute`
call's argument list contains `+` between the call's parentheses (as the
claim reads it, with nesting), yet the concatenation rule produces no
Finding, because the `+` stands after the inner `)` of `f(x)` and the
regex's character class cannot pass a closing parenthesis. -/
theorem claim_C7_cex :
    SQLInj.specConcatClaim SQLInj.contentC7 = true
    ∧ SQLInj.pat3Issues "app2.py" SQLInj.contentC7 = [] := by
  constructor
  · decide
  · decide

/-- Claim C7 (amended): the concatenation rule fires — producing exactly
one whole-file Finding, with at most one Finding per file however many
calls match — precisely for content that splits as
`pre ++ ".execute(" ++ a ++ "+" ++ b ++ ")" ++ post` with no `)` inside
`a` or `b`; a `+` separated from the `(` of `.execute(` by an inner `)`
is not detected. -/
theorem claim_C7 (fp : String) (content : List Char) :
    (SQLInj.pat3Issues fp content = [SQLInj.concatMsg fp] ↔
      ∃ pre a b post,
        content = pre ++ (SQLInj.execOpen ++ (a ++ '+' :: (b ++ ')' :: post))) ∧
          ')' ∉ a ∧ ')' ∉ b)
    ∧ (SQLInj.pat3Issues fp content = [SQLInj.concatMsg fp]
        ∨ SQLInj.pat3Issues fp content = []) := by
  have hiff : SQLInj.pat3Issues fp content = [SQLInj.concatMsg fp]
      ↔ SQLInj.search3 content = true := by
    unfold SQLInj.pat3Issues
    by_cases hs : SQLInj.search3 content = true
    · simp [hs]
    · simp only [Bool.not_eq_true] at hs
      simp [hs]
  constructor
  · rw [hiff, SQLInj.search3_iff]
  · by_cases hs : SQLInj.search3 content = true
    · exact Or.inl (hiff.2 hs)
    · right
      simp only [Bool.not_eq_true] at hs
      simp [SQLInj.pat3Issues, hs]

/-- Claim C8: on the parameterized call
`cursor.execute("SELECT * FROM t WHERE id=%s", (x,))` the File Checker
returns safe with an empty Finding list: no textual and no structural rule
fires. -/
theorem claim_C8 (fp : String) :
    SQLInj.check_python_file fp
        (SQLInj.ReadRes.ok SQLInj.contentC8 (some SQLInj.contentC8Ast))
      = (true, []) := rfl

/-- Claim C9 (code bug): every invocation of the structure validator with a
manifest path raises `NameError` — `main` calls `validate_manifest_19`,
which is not among the module's top-level bindings (the validator is bound
as `validate_manifest`) — instead of collecting the violations, printing
them as a bulleted list, and exiting 0/1 accordingly. -/
theorem claim_C9_bug (p : String) :
    OdooVal.main ["validate_odoo_structure.py", p]
      = OdooVal.PyOutcome.raises OdooVal.nameErrorMsg
    ∧ OdooVal.manifestValidatorCallee ∉ OdooVal.definedTopLevel := by
  constructor
  · rfl
  · decide

theorem validate_manifest_installable (m : OdooVal.Manifest)
    (errs : List OdooVal.ManifestError)
    (h : OdooVal.validate_manifest m = Except.ok errs) :
    (OdooVal.ManifestError.notInstallable ∈ errs ↔
      OdooVal.pyFalsy (OdooVal.getD m "installable" (OdooVal.PyVal.bool true)) = true) := by
  simp only [OdooVal.validate_manifest] at h
  split at h
  case _ version hver =>
    split at h
    case _ e hAI => exact absurd h (by simp)
    case _ hasAI hAI =>
      split at h
      case _ e hE6 => exact absurd h (by simp)
      case _ e6 hE6 =>
        simp only [Except.ok.injEq] at h
        subst h
        have h6 := OdooVal.aiCheck_ok_no_install m hasAI e6 hE6
        constructor
        · intro hmem
          simp only [List.mem_append] at hmem
          rcases hmem with (((((h1 | h2) | h3) | h4) | h5) | h6m) | h7
          · revert h1
            by_cases hc : (OdooVal.REQUIRED_MANIFEST_KEYS.filter
                (fun k => !(m.map Prod.fst).contains k)).isEmpty <;>
              simp [hc]
          · revert h2
            by_cases hc : (OdooVal.DEPRECATED_KEYS.filter
                (fun k => (m.map Prod.fst).contains k)).isEmpty <;>
              simp [hc]
          · revert h3
            by_cases hc : (OdooVal.pyTruthy (OdooVal.getD m "license" OdooVal.PyVal.none)
                && !OdooVal.isAllowedLicense (OdooVal.getD m "license" OdooVal.PyVal.none)) = true <;>
              simp [hc]
          · revert h4
            by_cases hc : (!startsWithChars OdooVal.prefix19 version.data) = true <;>
              simp [hc]
          · revert h5
            by_cases hc : ((OdooVal.splitDots version.data).length != 5) = true <;>
              simp [hc]
          · exact absurd h6m h6
          · revert h7
            by_cases hc : OdooVal.pyFalsy (OdooVal.getD m "installable"
                (OdooVal.PyVal.bool true)) = true <;>
              simp [hc]
        · intro hflag
          simp [List.mem_append, hflag]
  case _ hver => exact absurd h (by simp)

/-- Claim C10: whenever the manifest validator returns a violation list,
that list contains the "not installable" error iff the manifest's
`installable` value (defaulting to `True` when the key is absent) is falsy;
in particular a present falsy value produces the error and an absent key
does not. -/
theorem claim_C10 (m : OdooVal.Manifest) (errs : List OdooVal.ManifestError)
    (h : OdooVal.validate_manifest m = Except.ok errs) :
    (∀ v, OdooVal.getVal m "installable" = some v → OdooVal.pyFalsy v = true →
      OdooVal.ManifestError.notInstallable ∈ errs)
    ∧ (OdooVal.getVal m "installable" = Option.none →
      OdooVal.ManifestError.notInstallable ∉ errs) := by
  have hiff := validate_manifest_installable m errs h
  constructor
  · intro v hv hf
    apply hiff.2
    unfold OdooVal.getD
    rw [hv]
    exact hf
  · intro hn hmem
    have hflag := hiff.1 hmem
    unfold OdooVal.getD at hflag
    rw [hn] at hflag
    simp [OdooVal.pyFalsy, OdooVal.pyTruthy] at hflag

/-- Witness for claim C10: a concrete manifest with `installable: False`
for which the validator returns exactly the "not installable" error. -/
theorem claim_C10_witness :
    OdooVal.validate_manifest OdooVal.manifestW
      = Except.ok [OdooVal.ManifestError.notInstallable]
    ∧ OdooVal.ManifestError.notInstallable ∈ [OdooVal.ManifestError.notInstallable] :=
  ⟨rfl, (claim_C10 OdooVal.manifestW [OdooVal.ManifestError.notInstallable] rfl).1
    (OdooVal.PyVal.bool false) rfl rfl⟩
